import Mathlib

/-
Verification of the growable-array container in src/vector.h.

Two shallow embeddings are developed, both translated from the source:

* a value-level model (`VectorDemo.vector`): the container is its list of
  live elements (slots `[0, size_)` of the buffer) together with the
  allocated capacity.  Element loops (`move_element`, the `erase` shift
  loop) are translated index-for-index from the C++ loops; object
  construction/destruction and the heap are not visible at this level.
  This model settles the functional success-path claims.

* an instrumented model (`VectorDemo.Exec`): an explicit heap of blocks
  whose slots carry an object-lifetime state (uninitialized / live /
  destructed), a budget that makes the element type's copy operations
  fail on demand (the "counting test type" of the spec), and a flag `ub`
  recording any lifetime violation (reading or assigning a destructed or
  uninitialized slot, destructing a non-live slot, constructing over a
  live object, writing through a null or freed pointer).  The fallible
  paths of `copy_and_construct`, `copy_to_ptr`, `resize`, `reserve`, the
  copy constructor and `erase` are translated statement-for-statement
  from the source, including their catch blocks.  This model settles the
  error-handling and lifetime claims.
-/

namespace VectorDemo

/-- Value-level state of `vector<T>`: `data` is the list of live elements
(the values held in slots `[0, size_)` of the buffer, so `data.length`
is `size_`), and `cap` is `capacity_`. -/
structure vector (α : Type) where
  data : List α
  cap : Nat
deriving DecidableEq

namespace vector

variable {α : Type}

/-- Default constructor `vector()`: `data_ = nullptr`, `size_ = 0`,
`capacity_ = 0`. -/
def nil : vector α := ⟨[], 0⟩

/-- Loop of `move_element(from, to)`: `for (size_t i = from; i > to; i--)
data_[i] = data_[i-1];`, translated with the current loop counter as the
recursion argument. -/
def move_loop [Inhabited α] (tgt : Nat) (l : List α) : Nat → List α
  | 0 => l
  | i + 1 => if tgt < i + 1 then move_loop tgt (l.set (i + 1) (l.getD i default)) i else l

/-- Primitive `move_element(from, to)` of the source (value level): if
`from != to`, save a copy of `data_[from]`, run the backward shift loop,
then copy-assign the saved copy into slot `to`. -/
def move_element [Inhabited α] (l : List α) (frm tgt : Nat) : List α :=
  if frm ≠ tgt then (move_loop tgt l frm).set tgt (l.getD frm default) else l

/-- Private helper `resize_and_insert(size, i, e)` on the success path
(value level): the new buffer receives `e` at index `size_` and copies of
the old elements at `[0, size_)`, then `size_++` and
`move_element(size_ - 1, i)`; `capacity_` becomes `size`. -/
def resize_and_insert [Inhabited α] (v : vector α) (size i : Nat) (e : α) : vector α :=
  { data := move_element (v.data ++ [e]) v.data.length i, cap := size }

/-- Public `insert(pos, e)` on the success path (value level), with the
iterator argument and result modelled as indices off `begin()`: when the
buffer is full it grows via
`resize_and_insert(max(1, capacity_ * 2), pos_i, e)`, otherwise `e` is
copy-constructed into the tail slot, `size_++`, and
`move_element(size_ - 1, pos_i)` rotates it into place.  Returns
`begin() + pos_i`. -/
def insert [Inhabited α] (v : vector α) (pos_i : Nat) (e : α) : vector α × Nat :=
  (if v.data.length = v.cap then
    resize_and_insert v (max 1 (v.cap * 2)) pos_i e
  else
    { data := move_element (v.data ++ [e]) v.data.length pos_i, cap := v.cap },
  pos_i)

/-- Public `push_back(e)`: defined in the source as `insert(end(), e)`,
i.e. insertion at index `size_`. -/
def push_back [Inhabited α] (v : vector α) (e : α) : vector α :=
  (insert v v.data.length e).1

/-- Shift loop of `erase(first, last)` (value level):
`for (size_t i = first_after_i; i < size_; i++)
data_[first_i + i - first_after_i] = data_[i];` — the per-iteration
destructor call has no value-level content (it is modelled in the
instrumented embedding).  The last argument is fuel bounding the
remaining iterations. -/
def erase_loop [Inhabited α] (first_i first_after_i : Nat) (l : List α) : Nat → Nat → List α
  | _, 0 => l
  | i, fuel + 1 =>
    if i < l.length then
      erase_loop first_i first_after_i (l.set (first_i + i - first_after_i) (l.getD i default))
        (i + 1) fuel
    else l

/-- Public range `erase(first, last)` on the success path (value level),
iterators modelled as indices: run the shift loop from `first_after_i`,
then `size_ -= last - first` (restricting the live prefix), returning
`begin() + first_i`. -/
def erase [Inhabited α] (v : vector α) (first_i last_i : Nat) : vector α × Nat :=
  (⟨(erase_loop first_i last_i v.data last_i v.data.length).take
      (v.data.length - (last_i - first_i)), v.cap⟩, first_i)

/-- Private `resize(size)` on the success path (value level): `size == 0`
frees the buffer and zeroes `capacity_`; otherwise `copy_to_ptr` moves the
values into a fresh buffer of exactly `size` slots and sets
`capacity_ = size`. -/
def resize (v : vector α) (size : Nat) : vector α :=
  if size = 0 then { data := v.data, cap := 0 } else { data := v.data, cap := size }

/-- Public `reserve(size)` (value level, success path): reallocate via
`resize(size)` only when `size > capacity_`. -/
def reserve (v : vector α) (n : Nat) : vector α :=
  if n > v.cap then resize v n else v

/-- Copy constructor `vector(vector const&)` on the success path (value
level): an empty source gives an empty container; otherwise the new
buffer holds copies of the source's elements and
`capacity_ = size_ = other.size()`. -/
def copy (v : vector α) : vector α :=
  if v.data.length ≠ 0 then { data := v.data, cap := v.data.length } else nil

/-- Copy assignment `operator=(other)`: copy-construct a temporary from
`other`, then `swap` with it, so the receiver becomes exactly the
temporary (the first argument, the receiver's old state, is discarded
with the temporary). -/
def assign (_self other : vector α) : vector α := copy other

/-- Auxiliary: `List.getD` at the index just overwritten by `set`. -/
lemma getD_set_self [Inhabited α] (l : List α) (i : Nat) (a : α) (h : i < l.length) :
    (l.set i a).getD i default = a := by
  have h2 : i < (l.set i a).length := by simpa using h
  rw [List.getD_eq_getElem _ _ h2]
  exact List.getElem_set_self _

/-- Auxiliary: `List.getD` away from the index overwritten by `set`. -/
lemma getD_set_ne [Inhabited α] (l : List α) (i j : Nat) (a : α) (hne : i ≠ j) :
    (l.set i a).getD j default = l.getD j default := by
  by_cases h : j < l.length
  · have h2 : j < (l.set i a).length := by simpa using h
    rw [List.getD_eq_getElem _ _ h2, List.getD_eq_getElem _ _ h]
    exact List.getElem_set_ne hne _
  · rw [List.getD_eq_default _ _ (by simpa using not_lt.mp h),
        List.getD_eq_default _ _ (not_lt.mp h)]

/-- Auxiliary: `List.getD` through `drop`. -/
lemma getD_drop [Inhabited α] (l : List α) (m k : Nat) :
    (l.drop m).getD k default = l.getD (m + k) default := by
  by_cases h : m + k < l.length
  · have h2 : k < (l.drop m).length := by simp; omega
    rw [List.getD_eq_getElem _ _ h2, List.getD_eq_getElem _ _ h]
    exact List.getElem_drop ..
  · rw [List.getD_eq_default _ _ (by simp; omega),
        List.getD_eq_default _ _ (by omega)]

/-- Auxiliary: `List.getD` through `take` inside the kept prefix. -/
lemma getD_take [Inhabited α] (l : List α) (m k : Nat) (h : k < m) :
    (l.take m).getD k default = l.getD k default := by
  by_cases hk : k < l.length
  · have h2 : k < (l.take m).length := by simp; omega
    rw [List.getD_eq_getElem _ _ h2, List.getD_eq_getElem _ _ hk]
    exact List.getElem_take ..
  · rw [List.getD_eq_default _ _ (by simp; omega),
        List.getD_eq_default _ _ (by omega)]

/-- Auxiliary: lists that agree on length and pointwise on `getD` are equal. -/
lemma ext_getD [Inhabited α] (l₁ l₂ : List α) (hlen : l₁.length = l₂.length)
    (h : ∀ k, l₁.getD k default = l₂.getD k default) : l₁ = l₂ := by
  apply List.ext_getElem hlen
  intro i h₁ h₂
  have hi := h i
  rwa [List.getD_eq_getElem _ _ h₁, List.getD_eq_getElem _ _ h₂] at hi

/-- The backward shift loop of `move_element` preserves the buffer length. -/
lemma move_loop_length [Inhabited α] (tgt : Nat) :
    ∀ (i : Nat) (l : List α), (move_loop tgt l i).length = l.length := by
  intro i
  induction i with
  | zero => intro l; rfl
  | succ i ih =>
    intro l
    rw [move_loop]
    by_cases h : tgt < i + 1
    · rw [if_pos h, ih]; simp
    · rw [if_neg h]

/-- Pointwise description of the backward shift loop of `move_element`:
positions in `(tgt, i]` receive their left neighbour's original value,
everything else is untouched. -/
lemma move_loop_getD [Inhabited α] (tgt : Nat) :
    ∀ (i : Nat) (l : List α), i < l.length → ∀ k,
      (move_loop tgt l i).getD k default =
        if tgt < k ∧ k ≤ i then l.getD (k - 1) default else l.getD k default := by
  intro i
  induction i with
  | zero =>
    intro l _ k
    rw [show move_loop tgt l 0 = l from rfl,
      if_neg (by omega : ¬(tgt < k ∧ k ≤ 0))]
  | succ i ih =>
    intro l hlen k
    rw [move_loop]
    by_cases hbr : tgt < i + 1
    · rw [if_pos hbr]
      have hlen2 : i < (l.set (i + 1) (l.getD i default)).length := by simp; omega
      rw [ih _ hlen2 k]
      by_cases hA : tgt < k ∧ k ≤ i
      · rw [if_pos hA, if_pos (by omega : tgt < k ∧ k ≤ i + 1),
          getD_set_ne _ _ _ _ (by omega)]
      · rw [if_neg hA]
        by_cases hkeq : k = i + 1
        · subst hkeq
          rw [if_pos (by omega : tgt < i + 1 ∧ i + 1 ≤ i + 1),
            getD_set_self _ _ _ hlen]
          simp
        · rw [getD_set_ne _ _ _ _ (by omega),
            if_neg (by omega : ¬(tgt < k ∧ k ≤ i + 1))]
    · rw [if_neg hbr, if_neg (by omega : ¬(tgt < k ∧ k ≤ i + 1))]

/-- Closed form of `move_element` as used by `insert`: appending `e` and
rotating it from the tail slot down to `pos` yields insertion at `pos`. -/
lemma move_element_append [Inhabited α] (l : List α) (e : α) (pos : Nat)
    (h : pos ≤ l.length) :
    move_element (l ++ [e]) l.length pos = l.take pos ++ e :: l.drop pos := by
  rcases eq_or_lt_of_le h with heq | hlt
  · rw [move_element, if_neg (by omega : ¬l.length ≠ pos)]
    subst heq
    simp
  · rw [move_element, if_pos (by omega : l.length ≠ pos)]
    apply ext_getD
    · simp [move_loop_length]
      omega
    · intro k
      have hlen : l.length < (l ++ [e]).length := by simp
      have htk : (l.take pos).length = pos := by simp; omega
      by_cases hk : k = pos
      · subst hk
        rw [getD_set_self _ _ _ (by simp [move_loop_length]; omega)]
        rw [List.getD_append_right _ _ _ _ le_rfl, Nat.sub_self]
        rw [List.getD_append_right _ _ _ _ (by omega)]
        rw [show k - (l.take k).length = 0 from by omega]
        simp
      · rw [getD_set_ne _ _ _ _ (by omega), move_loop_getD _ _ _ hlen k]
        by_cases hA : pos < k ∧ k ≤ l.length
        · rw [if_pos hA, List.getD_append _ _ _ _ (by omega)]
          rw [List.getD_append_right _ _ _ _ (by omega)]
          rw [show k - (l.take pos).length = (k - pos - 1) + 1 from by omega]
          rw [List.getD_cons_succ, getD_drop]
          congr 1
          omega
        · rw [if_neg hA]
          by_cases hk2 : k < pos
          · rw [List.getD_append _ _ _ _ (by omega),
              List.getD_append _ _ _ _ (by omega),
              getD_take _ _ _ hk2]
          · have hk3 : l.length < k := by omega
            rw [List.getD_eq_default _ _ (by simp; omega),
              List.getD_eq_default _ _ (by simp; omega)]

/-- The shift loop of `erase` preserves the buffer length. -/
lemma erase_loop_length [Inhabited α] (a b : Nat) :
    ∀ (fuel i : Nat) (l : List α), (erase_loop a b l i fuel).length = l.length := by
  intro fuel
  induction fuel with
  | zero => intro i l; rfl
  | succ fuel ih =>
    intro i l
    rw [erase_loop]
    by_cases h : i < l.length
    · rw [if_pos h, ih]
      simp
    · rw [if_neg h]

/-- Pointwise description of the shift loop of `erase`: with `a ≤ b ≤ i`
and enough fuel, positions `a + j - b` for source indices `j ≥ i` receive
the element originally `b - a` slots to their right; all other positions
are untouched. -/
lemma erase_loop_getD [Inhabited α] (a b : Nat) (hab : a ≤ b) :
    ∀ (fuel i : Nat) (l : List α), b ≤ i → l.length ≤ i + fuel → ∀ k,
      (erase_loop a b l i fuel).getD k default =
        if a + i ≤ k + b ∧ k + b < l.length + a then l.getD (k + b - a) default
        else l.getD k default := by
  intro fuel
  induction fuel with
  | zero =>
    intro i l hbi hfl k
    rw [show erase_loop a b l i 0 = l from rfl,
      if_neg (by omega : ¬(a + i ≤ k + b ∧ k + b < l.length + a))]
  | succ fuel ih =>
    intro i l hbi hfl k
    rw [erase_loop]
    by_cases hi : i < l.length
    · rw [if_pos hi]
      have hlen2 : (l.set (a + i - b) (l.getD i default)).length = l.length := by simp
      rw [ih (i + 1) _ (by omega) (by rw [hlen2]; omega) k, hlen2]
      by_cases h1 : k + b < l.length + a
      · by_cases h2 : a + (i + 1) ≤ k + b
        · rw [if_pos (by omega : a + (i + 1) ≤ k + b ∧ k + b < l.length + a),
            if_pos (by omega : a + i ≤ k + b ∧ k + b < l.length + a),
            getD_set_ne _ _ _ _ (by omega)]
        · by_cases h3 : k + b = a + i
          · rw [if_neg (by omega : ¬(a + (i + 1) ≤ k + b ∧ k + b < l.length + a)),
              show k = a + i - b from by omega,
              getD_set_self _ _ _ (by omega),
              if_pos (by omega : a + i ≤ a + i - b + b ∧ a + i - b + b < l.length + a),
              show a + i - b + b - a = i from by omega]
          · rw [if_neg (by omega : ¬(a + (i + 1) ≤ k + b ∧ k + b < l.length + a)),
              getD_set_ne _ _ _ _ (by omega),
              if_neg (by omega : ¬(a + i ≤ k + b ∧ k + b < l.length + a))]
      · rw [if_neg (by omega : ¬(a + (i + 1) ≤ k + b ∧ k + b < l.length + a)),
          getD_set_ne _ _ _ _ (by omega),
          if_neg (by omega : ¬(a + i ≤ k + b ∧ k + b < l.length + a))]
    · rw [if_neg hi,
        if_neg (by omega : ¬(a + i ≤ k + b ∧ k + b < l.length + a))]

/-- Closed form of range `erase` on the success path: the live prefix
becomes the untouched prefix `[0, first)` followed by the shifted
suffix `[last, size)`. -/
lemma erase_data [Inhabited α] (v : vector α) (a b : Nat) (hab : a ≤ b)
    (hb : b ≤ v.data.length) :
    (erase v a b).1.data = v.data.take a ++ v.data.drop b := by
  show (erase_loop a b v.data b v.data.length).take (v.data.length - (b - a)) = _
  apply ext_getD
  · simp [erase_loop_length]
    omega
  · intro k
    have hL := erase_loop_length a b v.data.length b v.data
    by_cases hk : k < v.data.length - (b - a)
    · rw [getD_take _ _ _ (by omega),
        erase_loop_getD a b hab v.data.length b v.data le_rfl (by omega) k]
      by_cases hka : k < a
      · rw [if_neg (by omega : ¬(a + b ≤ k + b ∧ k + b < v.data.length + a)),
          List.getD_append _ _ _ _ (by simp; omega),
          getD_take _ _ _ hka]
      · rw [if_pos (by omega : a + b ≤ k + b ∧ k + b < v.data.length + a),
          List.getD_append_right _ _ _ _ (by simp; omega),
          show k - (v.data.take a).length = k - a from by simp; omega,
          getD_drop,
          show b + (k - a) = k + b - a from by omega]
    · rw [List.getD_eq_default _ _ (by simp [erase_loop_length]; omega),
        List.getD_eq_default _ _ (by simp; omega)]

/-- Closed form of `insert` on the success path (both the growing and the
in-place branch): the element is placed at index `pos`. -/
lemma insert_data [Inhabited α] (v : vector α) (pos : Nat) (e : α)
    (h : pos ≤ v.data.length) :
    (insert v pos e).1.data = v.data.take pos ++ e :: v.data.drop pos := by
  rw [insert]
  by_cases hc : v.data.length = v.cap
  · rw [if_pos hc]
    exact move_element_append v.data e pos h
  · rw [if_neg hc]
    exact move_element_append v.data e pos h

/-- Appending at the end: `push_back` extends the element sequence by one. -/
lemma push_back_data [Inhabited α] (v : vector α) (e : α) :
    (push_back v e).data = v.data ++ [e] := by
  rw [push_back, insert_data v _ e le_rfl]
  simp

/-- Folding `push_back` over a list appends it to the element sequence. -/
lemma foldl_push_back (xs : List Nat) : ∀ v : vector Nat,
    (xs.foldl push_back v).data = v.data ++ xs := by
  induction xs with
  | nil => intro v; simp
  | cons x xs ih => intro v; rw [List.foldl_cons, ih, push_back_data]; simp

end vector

open vector

/-- Claim C4: for indices `a ≤ b ≤ size()`, `erase(a, b)` (half-open range, on
the success path) reduces `size()` by exactly `b - a` and preserves the
relative order and values of all elements outside `[a, b)`: the resulting
element sequence is exactly the prefix `[0, a)` followed by the suffix
`[b, size)` of the original. -/
theorem c4_erase_range (v : vector Nat) (a b : Nat) (hab : a ≤ b)
    (hb : b ≤ v.data.length) :
    (erase v a b).1.data = v.data.take a ++ v.data.drop b ∧
    (erase v a b).1.data.length = v.data.length - (b - a) := by
  refine ⟨erase_data v a b hab hb, ?_⟩
  rw [erase_data v a b hab hb]
  simp
  omega

/-- Witness for C4 at a concrete input (spec scenario 4):
`erase(1, 2)` on `[1, 99, 2, 3]` gives `[1, 2, 3]`. -/
theorem c4_erase_range_witness :
    (erase (⟨[1, 99, 2, 3], 4⟩ : vector Nat) 1 2).1.data =
      ([1, 99, 2, 3] : List Nat).take 1 ++ ([1, 99, 2, 3] : List Nat).drop 2 ∧
    (erase (⟨[1, 99, 2, 3], 4⟩ : vector Nat) 1 2).1.data.length =
      ([1, 99, 2, 3] : List Nat).length - (2 - 1) :=
  c4_erase_range ⟨[1, 99, 2, 3], 4⟩ 1 2 (by decide) (by decide)

/-- Claim C5: for `pos ≤ size()`, `insert(pos, v)` immediately followed by
`erase(pos)` (which the source defines as `erase(pos, pos + 1)`), both on
the success path, restores a sequence equal element-wise to the
original. -/
theorem c5_insert_erase_roundtrip (v : vector Nat) (pos e : Nat)
    (h : pos ≤ v.data.length) :
    (erase (insert v pos e).1 pos (pos + 1)).1.data = v.data := by
  have h1 := insert_data v pos e h
  have htk : (v.data.take pos).length = pos := by simp; omega
  rw [erase_data _ pos (pos + 1) (by omega) (by rw [h1]; simp; omega), h1]
  rw [List.take_left' htk,
    show v.data.take pos ++ e :: v.data.drop pos =
      (v.data.take pos ++ [e]) ++ v.data.drop pos from by simp,
    List.drop_left' (by simp; omega)]
  exact List.take_append_drop pos v.data

/-- Witness for C5 at a concrete input (spec scenario 3 then 4):
inserting `99` at index 1 of `[1, 2, 3]` and erasing index 1 again
restores `[1, 2, 3]`. -/
theorem c5_insert_erase_roundtrip_witness :
    (erase (insert (⟨[1, 2, 3], 3⟩ : vector Nat) 1 99).1 1 (1 + 1)).1.data =
      [1, 2, 3] :=
  c5_insert_erase_roundtrip ⟨[1, 2, 3], 3⟩ 1 99 (by decide)

/-- Claim C6: any sequence of successful `push_back` calls starting from the
default-constructed container yields exactly the pushed values in
insertion order (so `size()` equals their count), and `push_back(v)` is
the same operation as `insert(end(), v)`, insertion at index `size()`. -/
theorem c6_push_back_sequence (xs : List Nat) (v : vector Nat) (e : Nat) :
    (xs.foldl push_back (nil : vector Nat)).data = xs ∧
    (xs.foldl push_back (nil : vector Nat)).data.length = xs.length ∧
    push_back v e = (insert v v.data.length e).1 := by
  refine ⟨?_, ?_, rfl⟩ <;> rw [foldl_push_back] <;> simp [nil]

/-- Claim C7: `reserve(n)` with `n ≤ capacity()` changes nothing at all; with
`n > capacity()` it succeeds with `capacity() ≥ n` (in fact exactly `n`),
unchanged `size()`, and all prior elements equal in the same order. -/
theorem c7_reserve (v : vector Nat) (n : Nat) :
    (n ≤ v.cap → reserve v n = v) ∧
    (n > v.cap → n ≤ (reserve v n).cap ∧ (reserve v n).data = v.data ∧
      (reserve v n).data.length = v.data.length) := by
  constructor
  · intro h
    rw [reserve, if_neg (by omega)]
  · intro h
    rw [reserve, if_pos h, resize, if_neg (by omega)]
    exact ⟨le_rfl, rfl, rfl⟩

/-- Witness for C7 at concrete inputs: `reserve(3)` on a capacity-5
container is a no-op, and `reserve(10)` on an empty capacity-0 container
reaches capacity at least 10 with contents preserved (spec scenario 5). -/
theorem c7_reserve_witness :
    reserve (⟨[1, 2], 5⟩ : vector Nat) 3 = (⟨[1, 2], 5⟩ : vector Nat) ∧
    (10 ≤ (reserve (⟨[], 0⟩ : vector Nat) 10).cap ∧
      (reserve (⟨[], 0⟩ : vector Nat) 10).data = [] ∧
      (reserve (⟨[], 0⟩ : vector Nat) 10).data.length = ([] : List Nat).length) :=
  ⟨(c7_reserve ⟨[1, 2], 5⟩ 3).1 (by decide),
    (c7_reserve ⟨[], 0⟩ 10).2 (by decide)⟩

/-- Claim C8: self-assignment `v = v` (copy-construct a temporary from `v`,
then swap) leaves the element sequence and size unchanged and keeps the
container invariant `size ≤ capacity`. -/
theorem c8_self_assign (v : vector Nat) :
    (assign v v).data = v.data ∧
    (assign v v).data.length = v.data.length ∧
    (assign v v).data.length ≤ (assign v v).cap := by
  rw [assign, copy]
  by_cases h : v.data.length ≠ 0
  · rw [if_pos h]
    exact ⟨rfl, rfl, le_rfl⟩
  · rw [if_neg h]
    push_neg at h
    have hnil : v.data = [] := List.eq_nil_of_length_eq_zero h
    simp [nil, hnil]

/-- Claim C10: on success, `insert(pos, v)` returns `begin() + pos_i` where
`pos_i` is the index `pos` had relative to `begin()`, and the element
found there is the inserted one; `erase(first, last)` returns
`begin() + first_i`, and when `last < size()` the element found there is
the first element after the removed range. -/
theorem c10_returned_iterators (v : vector Nat) (pos a b e : Nat)
    (hpos : pos ≤ v.data.length) (hab : a ≤ b) (hb : b ≤ v.data.length) :
    (insert v pos e).2 = pos ∧
    (insert v pos e).1.data.getD pos default = e ∧
    (erase v a b).2 = a ∧
    (b < v.data.length →
      (erase v a b).1.data.getD a default = v.data.getD b default) := by
  have htk : (v.data.take pos).length = pos := by simp; omega
  refine ⟨rfl, ?_, rfl, ?_⟩
  · rw [insert_data v pos e hpos,
      List.getD_append_right _ _ _ _ (by omega),
      show pos - (v.data.take pos).length = 0 from by omega]
    simp
  · intro hlast
    have hta : (v.data.take a).length = a := by simp; omega
    rw [erase_data v a b hab hb,
      List.getD_append_right _ _ _ _ (by omega),
      show a - (v.data.take a).length = 0 from by omega,
      vector.getD_drop,
      Nat.add_zero]

/-- Witness for C10 at concrete inputs: inserting `99` at index 1 of
`[1, 2, 3]` returns index 1 holding `99`; erasing `[1, 2)` returns index
1 holding the old element of index 2. -/
theorem c10_returned_iterators_witness :
    (insert (⟨[1, 2, 3], 3⟩ : vector Nat) 1 99).2 = 1 ∧
    (insert (⟨[1, 2, 3], 3⟩ : vector Nat) 1 99).1.data.getD 1 default = 99 ∧
    (erase (⟨[1, 2, 3], 3⟩ : vector Nat) 1 2).2 = 1 ∧
    (2 < (⟨[1, 2, 3], 3⟩ : vector Nat).data.length →
      (erase (⟨[1, 2, 3], 3⟩ : vector Nat) 1 2).1.data.getD 1 default =
        (⟨[1, 2, 3], 3⟩ : vector Nat).data.getD 2 default) :=
  c10_returned_iterators ⟨[1, 2, 3], 3⟩ 1 1 2 99 (by decide) (by decide) (by decide)

namespace Exec

/-- Lifetime state of one slot of a raw storage block: uninitialized
bytes, a live constructed object holding a value, or raw bytes left
behind by a destructed object (the old value is kept so that execution
past a lifetime violation can continue deterministically). -/
inductive Slot (α : Type) where
  | uninit : Slot α
  | live : α → Slot α
  | dead : α → Slot α
deriving DecidableEq

/-- Instrumented memory: blocks by address in allocation order (`none`
means the block was freed with `operator delete`), a budget of element
copy operations that succeed before T's copy constructor or
copy-assignment raises (the spec's counting test type), and a flag `ub`
recording any object-lifetime violation so far. -/
structure Mem (α : Type) where
  blocks : List (Option (List (Slot α)))
  budget : Nat
  ub : Bool
deriving DecidableEq

/-- Pointers are `nullptr` or a block address. -/
abbrev Ptr := Option Nat

variable {α : Type}

/-- Record a lifetime violation. -/
def Mem.flag (m : Mem α) : Mem α := { m with ub := true }

/-- Slots of the block at an address (empty if out of range or freed). -/
def Mem.block (m : Mem α) (a : Nat) : List (Slot α) :=
  (m.blocks.getD a none).getD []

/-- Read the lifetime state of slot `i` behind pointer `p`. -/
def Mem.readSlot (m : Mem α) (p : Ptr) (i : Nat) : Slot α :=
  match p with
  | none => Slot.uninit
  | some a => (m.block a).getD i Slot.uninit

/-- Overwrite the lifetime state of slot `i` behind pointer `p`; writing
through a null pointer or into a freed block is a violation. -/
def Mem.writeSlot (m : Mem α) (p : Ptr) (i : Nat) (s : Slot α) : Mem α :=
  match p with
  | none => m.flag
  | some a =>
    match m.blocks.getD a none with
    | none => m.flag
    | some blk => { m with blocks := m.blocks.set a (some (blk.set i s)) }

/-- `operator new(n * sizeof(T))`: append a fresh block of `n`
uninitialized slots and return its address. -/
def Mem.alloc (m : Mem α) (n : Nat) : Nat × Mem α :=
  (m.blocks.length, { m with blocks := m.blocks ++ [some (List.replicate n Slot.uninit)] })

/-- `operator delete(p)`: free the block (`delete nullptr` is a no-op). -/
def Mem.free (m : Mem α) (p : Ptr) : Mem α :=
  match p with
  | none => m
  | some a => { m with blocks := m.blocks.set a none }

/-- Read slot `i` as a T value (an lvalue use of `p[i]`); reading a
destructed or uninitialized slot is a violation. -/
def Mem.readLive [Inhabited α] (m : Mem α) (p : Ptr) (i : Nat) : α × Mem α :=
  match m.readSlot p i with
  | Slot.live v => (v, m)
  | Slot.dead v => (v, m.flag)
  | Slot.uninit => (default, m.flag)

/-- One invocation of T's copy constructor or copy-assignment operator on
value `v`: succeeds while the budget lasts, then raises. -/
def Mem.copyT (m : Mem α) (v : α) : Except (Mem α) (α × Mem α) :=
  match m.budget with
  | 0 => .error m
  | b + 1 => .ok (v, { m with budget := b })

/-- Placement `new(p + i) T(v)` after the copy of `v` succeeded:
constructing on top of a live object (leaking it) is a violation. -/
def Mem.constructAt (m : Mem α) (p : Ptr) (i : Nat) (v : α) : Mem α :=
  match m.readSlot p i with
  | Slot.live _ => (m.writeSlot p i (Slot.live v)).flag
  | _ => m.writeSlot p i (Slot.live v)

/-- Explicit destructor call `p[i].~T()`: destructing a slot that does
not hold a live object is a violation (double destruction or destruction
of raw bytes). -/
def Mem.destroyAt (m : Mem α) (p : Ptr) (i : Nat) : Mem α :=
  match m.readSlot p i with
  | Slot.live v => m.writeSlot p i (Slot.dead v)
  | _ => m.flag

/-- Copy-assignment `p[i] = v` (after the source value was read): the
copy may raise; assigning into a slot that does not hold a live object is
a violation. -/
def Mem.assignAt [Inhabited α] (m : Mem α) (p : Ptr) (i : Nat) (v : α) :
    Except (Mem α) (Mem α) :=
  match m.copyT v with
  | .error m => .error m
  | .ok (v, m) =>
    match m.readSlot p i with
    | Slot.live _ => .ok (m.writeSlot p i (Slot.live v))
    | _ => .ok ((m.writeSlot p i (Slot.live v)).flag)

/-- Instrumented state of `vector<T>`: the fields `data_`, `size_`,
`capacity_`. -/
structure vec where
  data : Ptr
  size : Nat
  capacity : Nat
deriving DecidableEq

/-- Loop of `destroy_all(ptr, size)`: destruct slots `i, …, i + n - 1`. -/
def destroyRange (p : Ptr) : Nat → Nat → Mem α → Mem α
  | _, 0, m => m
  | i, n + 1, m => destroyRange p (i + 1) n (m.destroyAt p i)

/-- Free function `destroy_all(ptr, size)`: destruct the first `size`
slots in index order (a null pointer is only legal with `size == 0`). -/
def destroy_all (p : Ptr) (size : Nat) (m : Mem α) : Mem α :=
  match p with
  | none => if size = 0 then m else m.flag
  | some _ => destroyRange p 0 size m

/-- Loop of `copy_and_construct(dst, src, size)` with the remaining
iteration count as fuel: copy-construct `src[i]` into `dst + i` in index
order; on a raised copy the error carries the failure index `i`. -/
def cacLoop [Inhabited α] (dst : Ptr) (src : Ptr) :
    Nat → Nat → Mem α → Except (Nat × Mem α) (Mem α)
  | _, 0, m => .ok m
  | i, n + 1, m =>
    match (m.readLive src i : α × Mem α) with
    | (v, m) =>
      match m.copyT v with
      | .error m => .error (i, m)
      | .ok (v, m) => cacLoop dst src (i + 1) n (m.constructAt dst i v)

/-- Free function `copy_and_construct(dst, src, size)`: on a raised copy
at index `i`, the catch block destructs the `i` elements already
constructed in `dst` and re-raises. -/
def copy_and_construct [Inhabited α] (dst : Ptr) (src : Ptr) (size : Nat)
    (m : Mem α) : Except (Mem α) (Mem α) :=
  match cacLoop dst src 0 size m with
  | .ok m => .ok m
  | .error (i, m) => .error (destroyRange dst 0 i m)

/-- Copy constructor `vector(vector const& v)`: for a non-empty source,
`operator new(v.size() * sizeof(T))` then `copy_and_construct`; exactly
as in the source, a raised copy propagates out of the constructor
without any `operator delete` of the fresh allocation. -/
def copy_ctor [Inhabited α] (v : vec) (m : Mem α) :
    Except (Mem α) (vec × Mem α) :=
  if v.size ≠ 0 then
    match m.alloc v.size with
    | (ptr, m) =>
      match copy_and_construct (some ptr) v.data v.size m with
      | .error m => .error m
      | .ok m => .ok (⟨some ptr, v.size, v.size⟩, m)
  else .ok (⟨none, 0, 0⟩, m)

/-- Member `copy_to_ptr(capacity, ptr)`: copy the live elements into the
fresh block `ptr`; afterwards — in the catch block as well — swap
`ptr` with `data_`, set `capacity_`, destruct the `size_` old elements
and free the old block; the catch block additionally sets `size_ = 0`
and re-raises. -/
def copy_to_ptr [Inhabited α] (self : vec) (capacity : Nat) (ptr : Nat)
    (m : Mem α) : Except (vec × Mem α) (vec × Mem α) :=
  match copy_and_construct (some ptr) self.data self.size m with
  | .error m =>
    .error (⟨some ptr, 0, capacity⟩,
      (destroy_all self.data self.size m).free self.data)
  | .ok m =>
    .ok (⟨some ptr, self.size, capacity⟩,
      (destroy_all self.data self.size m).free self.data)

/-- Member `resize(size)`: `size == 0` frees the buffer and zeroes
`capacity_` (leaving `size_` as it was); otherwise allocate `size` slots
and delegate to `copy_to_ptr`. -/
def resize [Inhabited α] (self : vec) (size : Nat) (m : Mem α) :
    Except (vec × Mem α) (vec × Mem α) :=
  if size = 0 then
    .ok (⟨none, self.size, 0⟩, m.free self.data)
  else
    match m.alloc size with
    | (ptr, m) => copy_to_ptr self size ptr m

/-- Member `reserve(size)`: reallocate via `resize(size)` only when
`size > capacity_`. -/
def reserve [Inhabited α] (self : vec) (size : Nat) (m : Mem α) :
    Except (vec × Mem α) (vec × Mem α) :=
  if size > self.capacity then resize self size m else .ok (self, m)

/-- Loop of range `erase` with the remaining iteration count as fuel:
`data_[first_i + i - first_after_i] = data_[i]; data_[i].~T();` for `i`
from `first_after_i` while `i < size_`. -/
def eraseLoop [Inhabited α] (p : Ptr) (first_i first_after_i : Nat) :
    Nat → Nat → Mem α → Except (Mem α) (Mem α)
  | _, 0, m => .ok m
  | i, n + 1, m =>
    match (m.readLive p i : α × Mem α) with
    | (v, m) =>
      match m.assignAt p (first_i + i - first_after_i) v with
      | .error m => .error m
      | .ok m => eraseLoop p first_i first_after_i (i + 1) n (m.destroyAt p i)

/-- Member `erase(first, last)` with iterators modelled as indices: run
the shift-and-destruct loop, then `size_ -= last - first` and return
`begin() + first_i`. -/
def erase [Inhabited α] (self : vec) (first_i last_i : Nat) (m : Mem α) :
    Except (Mem α) ((vec × Nat) × Mem α) :=
  match eraseLoop self.data first_i last_i last_i (self.size - last_i) m with
  | .error m => .error m
  | .ok m =>
    .ok ((⟨self.data, self.size - (last_i - first_i), self.capacity⟩, first_i), m)

end Exec

/-- Claim C1 is violated by the code: with the container `[10, 20]`
(size 2, capacity 2) and the element copy raising on the second copy,
`reserve(4)` does not leave the original storage untouched.  The catch
block of `copy_to_ptr` swaps first, so it destructs the two original
elements, frees the original block (address 0 becomes `none`), adopts the
new region and sets `size_ = 0` and `capacity_ = 4` before re-raising —
instead of destructing the partially constructed new region, freeing it,
and leaving the container exactly as before. -/
theorem c1_reserve_failure_destroys_original :
    Exec.reserve (⟨some 0, 2, 2⟩ : Exec.vec) 4
        (⟨[some [Exec.Slot.live 10, Exec.Slot.live 20]], 1, false⟩ : Exec.Mem Nat) =
      Except.error (⟨some 1, 0, 4⟩,
        ⟨[none, some [Exec.Slot.dead 10, Exec.Slot.uninit, Exec.Slot.uninit,
            Exec.Slot.uninit]], 0, false⟩) := rfl

/-- Claim C2 is violated by the code: copy-constructing from the
container `[10, 20]` with the element copy raising on the second copy
destructs the already-constructed element and propagates the error with
the source unmodified — but the freshly allocated block (address 1) is
never freed (it remains `some …` in the final heap): the allocation
leaks, since the constructor has no handler performing
`operator delete`. -/
theorem c2_copy_ctor_failure_leaks_allocation :
    Exec.copy_ctor (⟨some 0, 2, 2⟩ : Exec.vec)
        (⟨[some [Exec.Slot.live 10, Exec.Slot.live 20]], 1, false⟩ : Exec.Mem Nat) =
      Except.error
        (⟨[some [Exec.Slot.live 10, Exec.Slot.live 20],
            some [Exec.Slot.dead 10, Exec.Slot.uninit]], 0, false⟩) := rfl

/-- Claim C3 is violated by the code: `erase(0, 1)` on the container
`[1, 2, 3]` (all copies succeeding) destructs slot 1 in its first loop
iteration and then copy-assigns into that destructed slot in the second
iteration — the lifetime-violation flag `ub` of the final state is
`true`, and the final heap leaves slot 2 destructed inside the allocated
block while two further slots were assigned after destruction
bookkeeping, contradicting construct-once/destruct-once discipline. -/
theorem c3_erase_assigns_into_destructed_slot :
    Exec.erase (⟨some 0, 3, 3⟩ : Exec.vec) 0 1
        (⟨[some [Exec.Slot.live 1, Exec.Slot.live 2, Exec.Slot.live 3]], 10,
          false⟩ : Exec.Mem Nat) =
      Except.ok ((⟨some 0, 2, 3⟩, 0),
        ⟨[some [Exec.Slot.live 2, Exec.Slot.live 3, Exec.Slot.dead 3]], 8,
          true⟩) := rfl

/-- Claim C9 is violated by the code: `erase(0, 0)` — an empty range —
on the one-element container `[7]` leaves `size_ = 1` but destructs the
element: the loop body self-assigns `data_[0]` and then calls its
destructor for every trailing index, so afterwards slot 0 holds a
destructed object (`Slot.dead 7`) inside the live prefix instead of
remaining a live, constructed object. -/
theorem c9_erase_empty_range_destroys_elements :
    Exec.erase (⟨some 0, 1, 1⟩ : Exec.vec) 0 0
        (⟨[some [Exec.Slot.live 7]], 10, false⟩ : Exec.Mem Nat) =
      Except.ok ((⟨some 0, 1, 1⟩, 0),
        ⟨[some [Exec.Slot.dead 7]], 9, false⟩) := rfl

end VectorDemo
